import Mathlib

set_option maxRecDepth 100000

/-!
Shallow embedding of the byte-oriented scanner (`src/parse.rs`) and the
extension flag set (`src/extensions.rs`) of the `ron` repository.

Bytes of the input buffer are modelled as natural numbers (each below 256)
in a `List Nat`.  A Rust method `fn f(&mut self) -> Result<T>` is modelled
as a function `Bytes → Except Error T × Bytes`, returning the result
together with the cursor state left behind by the call (also on failure,
since Rust's `&mut self` mutations persist across an `Err` return).
The generic numeric scanners (`unsigned_integer<T: FromStr>` and friends)
are parametrised by the target type's textual parser, modelled as a
function from the scanned byte run to `Option T`.
-/

/-- The flat error taxonomy of `de::Error` as used by `parse.rs`.
`Utf8Error` stands for the UTF-8 decoding error produced when
`from_utf8` / `String::from_utf8` fail. -/
inductive Error where
  | Eof
  | ExpectedBoolean
  | ExpectedChar
  | ExpectedString
  | ExpectedIdentifier
  | ExpectedInteger
  | ExpectedFloat
  | InvalidEscape
  | Utf8Error
  deriving DecidableEq, Repr

/-- The cursor (`struct Bytes<'a>` in `parse.rs`): the remaining input view
plus 1-based column and line counters. -/
structure Bytes where
  bytes : List Nat
  column : Nat
  line : Nat
  deriving DecidableEq, Repr

/-- `const DIGITS: &[u8] = b"0123456789"`. -/
def DIGITS : List Nat := [48, 49, 50, 51, 52, 53, 54, 55, 56, 57]

/-- `const FLOAT_CHARS: &[u8] = b"0123456789.+-eE"`. -/
def FLOAT_CHARS : List Nat :=
  [48, 49, 50, 51, 52, 53, 54, 55, 56, 57, 46, 43, 45, 101, 69]

/-- The result of the string scanner (`enum ParsedStr<'a>`): an owned,
escape-decoded string (`Allocated`) or a borrowed slice of the input
(`Slice`).  Both carry their UTF-8 bytes. -/
inductive ParsedStr where
  | Allocated (s : List Nat)
  | Slice (s : List Nat)
  deriving DecidableEq, Repr

deriving instance DecidableEq for Except

/-- `Bytes::new`: cursor over the full buffer, at column 1, line 1. -/
def Bytes.new (bytes : List Nat) : Bytes :=
  { bytes := bytes, column := 1, line := 1 }

/-- `Bytes::peek`: the next unread byte, if any; never consumes. -/
def Bytes.peek (b : Bytes) : Option Nat :=
  b.bytes.head?

/-- `Bytes::advance_single`: consume one byte, bumping line/column; `Eof`
with the state untouched when the input is exhausted. -/
def Bytes.advance_single (b : Bytes) : Except Error Unit × Bytes :=
  match Bytes.peek b with
  | none => (Except.error Error.Eof, b)
  | some c =>
    if c = 10 then
      (Except.ok (), { bytes := b.bytes.drop 1, column := 1, line := b.line + 1 })
    else
      (Except.ok (), { bytes := b.bytes.drop 1, column := b.column + 1, line := b.line })

/-- `Bytes::advance`: `n` successive `advance_single` calls, stopping (and
keeping the partial consumption) at the first failure. -/
def Bytes.advance : Nat → Bytes → Except Error Unit × Bytes
  | 0, b => (Except.ok (), b)
  | n + 1, b =>
    match Bytes.advance_single b with
    | (Except.ok _, b1) => Bytes.advance n b1
    | (Except.error e, b1) => (Except.error e, b1)

/-- `Bytes::consume`: byte-for-byte match of a literal against the upcoming
input; on a full match all of the literal's bytes are consumed and `true`
returned, otherwise nothing is consumed and `false` returned. -/
def Bytes.consume (s : List Nat) (b : Bytes) : Bool × Bytes :=
  if s.isPrefixOf b.bytes then
    (true, (Bytes.advance s.length b).2)
  else
    (false, b)

/-- `Bytes::eat_byte`: consume and return one byte, `Eof` if none remain. -/
def Bytes.eat_byte (b : Bytes) : Except Error Nat × Bytes :=
  match Bytes.peek b with
  | some c => (Except.ok c, (Bytes.advance_single b).2)
  | none => (Except.error Error.Eof, b)

/-- `Bytes::next_bytes_contained_in`: length of the maximal run of upcoming
bytes drawn from `allowed`. -/
def Bytes.next_bytes_contained_in (allowed : List Nat) (b : Bytes) : Nat :=
  (b.bytes.takeWhile (fun c => allowed.contains c)).length

/-- `Bytes::unsigned_integer<T>`: scan the maximal digit run; `Eof` when it
is empty, otherwise parse it with the target type's parser (`fromStr`),
`ExpectedInteger` on parse failure; the cursor advances past the run in
either case. -/
def Bytes.unsigned_integer {T : Type} (fromStr : List Nat → Option T) (b : Bytes) :
    Except Error T × Bytes :=
  let num_bytes := Bytes.next_bytes_contained_in DIGITS b
  if num_bytes = 0 then
    (Except.error Error.Eof, b)
  else
    let res : Except Error T :=
      match fromStr (b.bytes.take num_bytes) with
      | some v => Except.ok v
      | none => Except.error Error.ExpectedInteger
    (res, (Bytes.advance num_bytes b).2)

/-- `Bytes::signed_integer<T>`: optional sign, then the unsigned path,
negating the result after a `-`. -/
def Bytes.signed_integer {T : Type} [Neg T] (fromStr : List Nat → Option T) (b : Bytes) :
    Except Error T × Bytes :=
  match Bytes.peek b with
  | some c =>
    if c = 43 then
      Bytes.unsigned_integer fromStr (Bytes.advance_single b).2
    else if c = 45 then
      let p := Bytes.unsigned_integer fromStr (Bytes.advance_single b).2
      (p.1.map Neg.neg, p.2)
    else
      Bytes.unsigned_integer fromStr b
  | none => (Except.error Error.Eof, b)

/-- One iteration of the `for` loop in `Bytes::decode_hex_escape`: eat one
byte and fold its hex value into the accumulator, `InvalidEscape` on a
non-hex byte (which has already been eaten). -/
def Bytes.decode_hex_step (n : Nat) (b : Bytes) : Except Error Nat × Bytes :=
  match Bytes.eat_byte b with
  | (Except.error e, b1) => (Except.error e, b1)
  | (Except.ok c, b1) =>
    if 48 ≤ c ∧ c ≤ 57 then (Except.ok (n * 16 + (c - 48)), b1)
    else if c = 97 ∨ c = 65 then (Except.ok (n * 16 + 10), b1)
    else if c = 98 ∨ c = 66 then (Except.ok (n * 16 + 11), b1)
    else if c = 99 ∨ c = 67 then (Except.ok (n * 16 + 12), b1)
    else if c = 100 ∨ c = 68 then (Except.ok (n * 16 + 13), b1)
    else if c = 101 ∨ c = 69 then (Except.ok (n * 16 + 14), b1)
    else if c = 102 ∨ c = 70 then (Except.ok (n * 16 + 15), b1)
    else (Except.error Error.InvalidEscape, b1)

/-- The `for _ in 0..4` loop of `Bytes::decode_hex_escape`, with the
iteration count made explicit. -/
def Bytes.decode_hex_loop : Nat → Nat → Bytes → Except Error Nat × Bytes
  | 0, n, b => (Except.ok n, b)
  | k + 1, n, b =>
    match Bytes.decode_hex_step n b with
    | (Except.ok n1, b1) => Bytes.decode_hex_loop k n1 b1
    | (Except.error e, b1) => (Except.error e, b1)

/-- `Bytes::decode_hex_escape`: four hex digits folded into one code unit. -/
def Bytes.decode_hex_escape (b : Bytes) : Except Error Nat × Bytes :=
  Bytes.decode_hex_loop 4 0 b

/-- `std::char::from_u32`: a `u32` is a valid Unicode scalar value when it is
below `0x110000` and not a UTF-16 surrogate code unit. -/
def char_from_u32 (n : Nat) : Option Nat :=
  if 0x110000 ≤ n ∨ (0xD800 ≤ n ∧ n ≤ 0xDFFF) then none else some n

/-- UTF-8 encoding of a Unicode scalar value (the effect of Rust's
`char::encode_utf8` appended to the store). -/
def utf8Encode (n : Nat) : List Nat :=
  if n < 0x80 then [n]
  else if n < 0x800 then
    [0xC0 ||| (n >>> 6), 0x80 ||| (n &&& 0x3F)]
  else if n < 0x10000 then
    [0xE0 ||| (n >>> 12), 0x80 ||| ((n >>> 6) &&& 0x3F), 0x80 ||| (n &&& 0x3F)]
  else
    [0xF0 ||| (n >>> 18), 0x80 ||| ((n >>> 12) &&& 0x3F),
      0x80 ||| ((n >>> 6) &&& 0x3F), 0x80 ||| (n &&& 0x3F)]

/-- State-machine core of the UTF-8 validator: `need` is the number of
continuation bytes still expected and `[lo, hi]` the admissible range for
the next byte of the current sequence (after the first continuation byte
the range is always `0x80`–`0xBF`). -/
def utf8ValidAux : List Nat → Nat → Nat → Nat → Bool
  | [], need, _, _ => need == 0
  | c :: rest, 0, _, _ =>
    if c < 0x80 then utf8ValidAux rest 0 0 0
    else if 0xC2 ≤ c && c ≤ 0xDF then utf8ValidAux rest 1 0x80 0xBF
    else if c = 0xE0 then utf8ValidAux rest 2 0xA0 0xBF
    else if (0xE1 ≤ c && c ≤ 0xEC) || c = 0xEE || c = 0xEF then utf8ValidAux rest 2 0x80 0xBF
    else if c = 0xED then utf8ValidAux rest 2 0x80 0x9F
    else if c = 0xF0 then utf8ValidAux rest 3 0x90 0xBF
    else if 0xF1 ≤ c && c ≤ 0xF3 then utf8ValidAux rest 3 0x80 0xBF
    else if c = 0xF4 then utf8ValidAux rest 3 0x80 0x8F
    else false
  | c :: rest, need + 1, lo, hi =>
    (lo ≤ c && c ≤ hi) && utf8ValidAux rest need 0x80 0xBF

/-- UTF-8 validity of a byte sequence, as checked by Rust's
`str::from_utf8` / `String::from_utf8` (the standard validator, including
the surrogate and overlong exclusions). -/
def utf8Valid (l : List Nat) : Bool :=
  utf8ValidAux l 0 0 0

/-- `Bytes::parse_str_escape`: decode one escape (the backslash has already
been consumed) and append its bytes to `store`.  Returns the outcome
together with the updated store and cursor. -/
def Bytes.parse_str_escape (store : List Nat) (b : Bytes) :
    Except Error Unit × List Nat × Bytes :=
  match Bytes.eat_byte b with
  | (Except.error e, b1) => (Except.error e, store, b1)
  | (Except.ok c, b1) =>
    if c = 34 then (Except.ok (), store ++ [34], b1)
    else if c = 92 then (Except.ok (), store ++ [92], b1)
    else if c = 98 then (Except.ok (), store ++ [8], b1)
    else if c = 102 then (Except.ok (), store ++ [12], b1)
    else if c = 110 then (Except.ok (), store ++ [10], b1)
    else if c = 114 then (Except.ok (), store ++ [13], b1)
    else if c = 116 then (Except.ok (), store ++ [9], b1)
    else if c = 117 then
      match Bytes.decode_hex_escape b1 with
      | (Except.error e, b2) => (Except.error e, store, b2)
      | (Except.ok n1, b2) =>
        if 0xDC00 ≤ n1 ∧ n1 ≤ 0xDFFF then
          (Except.error Error.InvalidEscape, store, b2)
        else if 0xD800 ≤ n1 ∧ n1 ≤ 0xDBFF then
          match Bytes.eat_byte b2 with
          | (Except.error e, b3) => (Except.error e, store, b3)
          | (Except.ok c1, b3) =>
            if c1 ≠ 92 then (Except.error Error.InvalidEscape, store, b3)
            else
              match Bytes.eat_byte b3 with
              | (Except.error e, b4) => (Except.error e, store, b4)
              | (Except.ok c2, b4) =>
                if c2 ≠ 117 then (Except.error Error.InvalidEscape, store, b4)
                else
                  match Bytes.decode_hex_escape b4 with
                  | (Except.error e, b5) => (Except.error e, store, b5)
                  | (Except.ok n2, b5) =>
                    if n2 < 0xDC00 ∨ 0xDFFF < n2 then
                      (Except.error Error.InvalidEscape, store, b5)
                    else
                      match char_from_u32
                          ((((n1 - 0xD800) <<< 10) ||| (n2 - 0xDC00)) + 0x10000) with
                      | some m => (Except.ok (), store ++ utf8Encode m, b5)
                      | none => (Except.error Error.InvalidEscape, store, b5)
        else
          match char_from_u32 n1 with
          | some m => (Except.ok (), store ++ utf8Encode m, b2)
          | none => (Except.error Error.InvalidEscape, store, b2)
    else (Except.error Error.InvalidEscape, store, b1)

/-- The `find` over `(0..).flat_map(get).enumerate()` used by
`Bytes::string`: index and value of the first byte equal to `\` (92) or
`"` (34), if any. -/
def find_escape_or_end : List Nat → Option (Nat × Nat)
  | [] => none
  | c :: rest =>
    if c = 92 ∨ c = 34 then some (0, c)
    else (find_escape_or_end rest).map (fun p => (p.1 + 1, p.2))

/-- The `loop` of `Bytes::string` on the `Allocated` path.  On entry `s`
holds the bytes scanned so far and index `i` points at the backslash that
is about to be consumed; `fuel` bounds the number of iterations (the real
loop strictly consumes input, so any fuel at least the remaining input
length is enough). -/
def Bytes.string_loop : Nat → List Nat → Nat → Bytes → Except Error ParsedStr × Bytes
  | 0, _, _, b => (Except.error Error.Eof, b)
  | fuel + 1, s, i, b =>
    let b1 := (Bytes.advance (i + 1) b).2
    match Bytes.parse_str_escape s b1 with
    | (Except.error e, _, b2) => (Except.error e, b2)
    | (Except.ok _, s1, b2) =>
      match find_escape_or_end b2.bytes with
      | none => (Except.error Error.Eof, b2)
      | some (ni, t) =>
        let s2 := s1 ++ b2.bytes.take ni
        if t = 34 then
          let b3 := (Bytes.advance (ni + 1) b2).2
          if utf8Valid s2 then (Except.ok (ParsedStr.Allocated s2), b3)
          else (Except.error Error.Utf8Error, b3)
        else Bytes.string_loop fuel s2 ni b2

/-- `Bytes::string`: leading `"` (else `ExpectedString`), then either the
zero-copy `Slice` path (closing quote found before any backslash, content
checked to be UTF-8) or the escape-decoding `Allocated` loop. -/
def Bytes.string (b : Bytes) : Except Error ParsedStr × Bytes :=
  match Bytes.consume [34] b with
  | (false, b0) => (Except.error Error.ExpectedString, b0)
  | (true, b1) =>
    match find_escape_or_end b1.bytes with
    | none => (Except.error Error.Eof, b1)
    | some (i, t) =>
      if t = 34 then
        if utf8Valid (b1.bytes.take i) then
          (Except.ok (ParsedStr.Slice (b1.bytes.take i)), (Bytes.advance (i + 1) b1).2)
        else (Except.error Error.Utf8Error, b1)
      else Bytes.string_loop b1.bytes.length (b1.bytes.take i) i b1

/-- `Bytes::float<T>`: scan the maximal run of float characters, parse it
with the target type's parser (`ExpectedFloat` on failure), and advance past
the run regardless of the parse outcome. -/
def Bytes.float {T : Type} (fromStr : List Nat → Option T) (b : Bytes) :
    Except Error T × Bytes :=
  let num_bytes := Bytes.next_bytes_contained_in FLOAT_CHARS b
  let res : Except Error T :=
    match fromStr (b.bytes.take num_bytes) with
    | some v => Except.ok v
    | none => Except.error Error.ExpectedFloat
  (res, (Bytes.advance num_bytes b).2)

/-- Model of the standard library's unsigned decimal parser
(`u64::from_str` and friends) as applied to the scanned digit run: fails on
the empty string or a non-digit byte.  Overflow cannot occur for the
unbounded model type `Nat`. -/
def fromStrNat (l : List Nat) : Option Nat :=
  if l = [] then none
  else if l.all (fun c => 48 ≤ c && c ≤ 57) then
    some (l.foldl (fun acc c => acc * 10 + (c - 48)) 0)
  else none

/-- Model of the standard library's signed decimal parser (`i64::from_str`)
restricted to the digit-only runs the scanner hands it. -/
def fromStrInt (l : List Nat) : Option Int :=
  (fromStrNat l).map Int.ofNat

/-- `struct Extensions: usize` from `extensions.rs`: a bit-packed flag set
over the three extension flags. -/
structure Extensions where
  bits : Nat
  deriving DecidableEq, Repr

/-- `Extensions::UNWRAP_NEWTYPES = 0x1`. -/
def Extensions.UNWRAP_NEWTYPES : Extensions := ⟨1⟩

/-- `Extensions::IMPLICIT_SOME = 0x2`. -/
def Extensions.IMPLICIT_SOME : Extensions := ⟨2⟩

/-- `Extensions::UNWRAP_VARIANT_NEWTYPES = 0x4`. -/
def Extensions.UNWRAP_VARIANT_NEWTYPES : Extensions := ⟨4⟩

/-- `bitflags` `empty()`, the `Default::default()` of `Extensions`. -/
def Extensions.empty : Extensions := ⟨0⟩

/-- `Extensions::from_ident`: exact match against the three canonical
lowercase names; anything else is unknown. -/
def Extensions.from_ident (ident : String) : Option Extensions :=
  if ident = ("unwrap_newtypes") then some Extensions.UNWRAP_NEWTYPES
  else if ident = ("implicit_some") then some Extensions.IMPLICIT_SOME
  else if ident = ("unwrap_variant_newtypes") then some Extensions.UNWRAP_VARIANT_NEWTYPES
  else none

/-- Decimal ASCII rendering of a natural number (the document format's
integer text). -/
def natToDecimalBytes (n : Nat) : List Nat :=
  (Nat.toDigits 10 n).map Char.toNat

/-- Modelled from the spec: the serializer for the flag set is not among
the given sources (`parse.rs` and `extensions.rs` only declare the set);
the spec says the flag set is integer-backed and "must serialize/deserialize
it using the document format's own integer ... representation".  We model
serialization as rendering the bit-packed value as the format's decimal
integer text. -/
def serializeExtensions (e : Extensions) : List Nat :=
  natToDecimalBytes e.bits

/-- Modelled from the spec: deserialization of the flag set through "the
same serialization machinery" reads the integer back — modelled with the
scanner's own unsigned-integer scanner — and rebuilds the bit-packed set. -/
def deserializeExtensions (l : List Nat) : Option Extensions :=
  match (Bytes.unsigned_integer fromStrNat (Bytes.new l)).1 with
  | Except.ok n => some ⟨n⟩
  | Except.error _ => none

/-! ### Helper lemmas about the cursor primitives -/

theorem advance_single_eq_cons (b : Bytes) (c : Nat) (t : List Nat) (h : b.bytes = c :: t) :
    Bytes.advance_single b =
      (Except.ok (),
        if c = 10 then { bytes := t, column := 1, line := b.line + 1 }
        else { bytes := t, column := b.column + 1, line := b.line }) := by
  unfold Bytes.advance_single Bytes.peek
  rw [h]
  by_cases hc : c = 10 <;> simp [hc]

theorem advance_bytes_of_le (n : Nat) : ∀ (b : Bytes), n ≤ b.bytes.length →
    (Bytes.advance n b).2.bytes = b.bytes.drop n := by
  induction n with
  | zero => intro b _; rfl
  | succ n ih =>
    intro b h
    cases hb : b.bytes with
    | nil => rw [hb] at h; simp at h
    | cons c t =>
      have h2 : n ≤ t.length := by rw [hb] at h; simp at h; omega
      simp only [Bytes.advance]
      rw [advance_single_eq_cons b c t hb]
      by_cases hc : c = 10 <;> simp only [hc, if_true, if_false, ite_true, ite_false] <;>
        rw [ih _ (by simpa using h2)] <;> simp [hb]

theorem isPrefixOf_head (b : Bytes) (c : Nat) (h : b.bytes.head? = some c) :
    List.isPrefixOf [c] b.bytes = true := by
  cases hb : b.bytes with
  | nil => rw [hb] at h; simp at h
  | cons d t =>
    rw [hb] at h
    simp at h
    subst h
    simp [List.isPrefixOf]

theorem take_takeWhile_length (p : Nat → Bool) : ∀ (l : List Nat),
    l.take (l.takeWhile p).length = l.takeWhile p := by
  intro l
  induction l with
  | nil => rfl
  | cons c t ih =>
    by_cases h : p c
    · simp [List.takeWhile_cons_of_pos h, ih]
    · simp [List.takeWhile_cons_of_neg h]

theorem drop_takeWhile_length (p : Nat → Bool) : ∀ (l : List Nat),
    l.drop (l.takeWhile p).length = l.dropWhile p := by
  intro l
  induction l with
  | nil => rfl
  | cons c t ih =>
    by_cases h : p c
    · simp [List.takeWhile_cons_of_pos h, List.dropWhile_cons_of_pos h, ih]
    · simp [List.takeWhile_cons_of_neg h, List.dropWhile_cons_of_neg h]

theorem head?_dropWhile_false (p : Nat → Bool) : ∀ (l : List Nat) (c : Nat),
    (l.dropWhile p).head? = some c → p c = false := by
  intro l
  induction l with
  | nil => intro c h; simp [List.dropWhile] at h
  | cons d t ih =>
    intro c h
    by_cases hp : p d
    · rw [List.dropWhile_cons_of_pos hp] at h
      exact ih c h
    · rw [List.dropWhile_cons_of_neg hp] at h
      simp at h
      rw [← h]
      simpa using hp

theorem next_bytes_zero (allowed : List Nat) (b : Bytes)
    (h : ∀ c, Bytes.peek b = some c → allowed.contains c = false) :
    Bytes.next_bytes_contained_in allowed b = 0 := by
  unfold Bytes.next_bytes_contained_in
  cases hb : b.bytes with
  | nil => simp
  | cons c t =>
    have hc := h c (by rw [Bytes.peek, hb]; rfl)
    have hc2 : c ∉ allowed := by simpa using hc
    simp [List.takeWhile_cons, hc2]

/-! ### Helper lemmas about the string scanner -/

theorem find_escape_lt_length : ∀ (l : List Nat) (i t : Nat),
    find_escape_or_end l = some (i, t) → i < l.length := by
  intro l
  induction l with
  | nil => intro i t h; simp [find_escape_or_end] at h
  | cons c rest ih =>
    intro i t h
    rw [find_escape_or_end] at h
    by_cases hc : c = 92 ∨ c = 34
    · rw [if_pos hc] at h
      simp at h
      simp only [List.length_cons]
      omega
    · rw [if_neg hc] at h
      cases hf : find_escape_or_end rest with
      | none => rw [hf] at h; simp at h
      | some p =>
        obtain ⟨pi, pt⟩ := p
        rw [hf] at h
        simp at h
        have := ih pi pt hf
        simp only [List.length_cons]
        omega

theorem find_escape_val : ∀ (l : List Nat) (i t : Nat),
    find_escape_or_end l = some (i, t) → t = 92 ∨ t = 34 := by
  intro l
  induction l with
  | nil => intro i t h; simp [find_escape_or_end] at h
  | cons c rest ih =>
    intro i t h
    rw [find_escape_or_end] at h
    by_cases hc : c = 92 ∨ c = 34
    · rw [if_pos hc] at h
      simp at h
      omega
    · rw [if_neg hc] at h
      cases hf : find_escape_or_end rest with
      | none => rw [hf] at h; simp at h
      | some p =>
        obtain ⟨pi, pt⟩ := p
        rw [hf] at h
        simp at h
        have := ih pi pt hf
        omega

theorem find_escape_quote_no_backslash : ∀ (l : List Nat) (i : Nat),
    find_escape_or_end l = some (i, 34) →
    92 ∈ l.takeWhile (fun c => c != 34) → False := by
  intro l
  induction l with
  | nil => intro i h; simp [find_escape_or_end] at h
  | cons c rest ih =>
    intro i h hm
    rw [find_escape_or_end] at h
    by_cases hc : c = 92 ∨ c = 34
    · rw [if_pos hc] at h
      simp at h
      cases hc with
      | inl h92 => omega
      | inr h34 =>
        rw [h34] at hm
        simp [List.takeWhile_cons] at hm
    · rw [if_neg hc] at h
      push_neg at hc
      have hne : (c != 34) = true := by simpa using hc.2
      rw [List.takeWhile_cons, if_pos hne] at hm
      rw [List.mem_cons] at hm
      cases hf : find_escape_or_end rest with
      | none => rw [hf] at h; simp at h
      | some p =>
        obtain ⟨pi, pt⟩ := p
        rw [hf] at h
        simp at h
        rcases hm with hm | hm
        · exact hc.1 hm.symm
        · rw [h.2] at hf
          exact ih pi hf hm

theorem find_escape_backslash_mem : ∀ (l : List Nat) (i : Nat),
    find_escape_or_end l = some (i, 92) →
    92 ∈ l.takeWhile (fun c => c != 34) := by
  intro l
  induction l with
  | nil => intro i h; simp [find_escape_or_end] at h
  | cons c rest ih =>
    intro i h
    rw [find_escape_or_end] at h
    by_cases hc : c = 92 ∨ c = 34
    · rw [if_pos hc] at h
      simp at h
      cases hc with
      | inl h92 =>
        rw [h92]
        simp [List.takeWhile_cons]
      | inr h34 => omega
    · rw [if_neg hc] at h
      push_neg at hc
      have hne : (c != 34) = true := by simpa using hc.2
      rw [List.takeWhile_cons, if_pos hne]
      cases hf : find_escape_or_end rest with
      | none => rw [hf] at h; simp at h
      | some p =>
        obtain ⟨pi, pt⟩ := p
        rw [hf] at h
        simp at h
        rw [h.2] at hf
        exact List.mem_cons_of_mem c (ih pi hf)

theorem string_loop_no_slice : ∀ (fuel : Nat) (s : List Nat) (i : Nat) (b : Bytes)
    (r : ParsedStr) (b2 : Bytes),
    Bytes.string_loop fuel s i b = (Except.ok r, b2) → ∀ sl, r ≠ ParsedStr.Slice sl := by
  intro fuel
  induction fuel with
  | zero =>
    intro s i b r b2 h sl
    simp [Bytes.string_loop] at h
  | succ n ih =>
    intro s i b r b2 h sl
    simp only [Bytes.string_loop] at h
    split at h
    · simp at h
    · split at h
      · simp at h
      · split at h
        · split at h
          · simp at h
            rw [← h.1]
            simp
          · simp at h
        · exact ih _ _ _ _ _ h sl

theorem string_of_no_quote (b : Bytes) (h : List.isPrefixOf [34] b.bytes = false) :
    Bytes.string b = (Except.error Error.ExpectedString, b) := by
  unfold Bytes.string Bytes.consume
  simp [h]

theorem string_of_quote (b : Bytes) (h : List.isPrefixOf [34] b.bytes = true) :
    Bytes.string b =
      (match find_escape_or_end (Bytes.advance 1 b).2.bytes with
       | none => (Except.error Error.Eof, (Bytes.advance 1 b).2)
       | some (i, t) =>
         if t = 34 then
           if utf8Valid ((Bytes.advance 1 b).2.bytes.take i) then
             (Except.ok (ParsedStr.Slice ((Bytes.advance 1 b).2.bytes.take i)),
               (Bytes.advance (i + 1) (Bytes.advance 1 b).2).2)
           else (Except.error Error.Utf8Error, (Bytes.advance 1 b).2)
         else
           Bytes.string_loop (Bytes.advance 1 b).2.bytes.length
             ((Bytes.advance 1 b).2.bytes.take i) i (Bytes.advance 1 b).2) := by
  unfold Bytes.string Bytes.consume
  simp [h]

theorem char_from_u32_combine (n1 n2 : Nat) (h1 : 0xD800 ≤ n1) (h2 : n1 ≤ 0xDBFF)
    (h3 : 0xDC00 ≤ n2) (h4 : n2 ≤ 0xDFFF) :
    char_from_u32 ((((n1 - 0xD800) <<< 10) ||| (n2 - 0xDC00)) + 0x10000) =
      some ((((n1 - 0xD800) <<< 10) ||| (n2 - 0xDC00)) + 0x10000) := by
  have ha : (n1 - 0xD800) <<< 10 < 2 ^ 20 := by
    rw [Nat.shiftLeft_eq]
    have e1 : (2 : Nat) ^ 10 = 1024 := by norm_num
    have e2 : (2 : Nat) ^ 20 = 1048576 := by norm_num
    rw [e1, e2]
    have hm : (n1 - 0xD800) * 1024 ≤ 1023 * 1024 := Nat.mul_le_mul_right _ (by omega)
    omega
  have hb : n2 - 0xDC00 < 2 ^ 20 := by
    have e2 : (2 : Nat) ^ 20 = 1048576 := by norm_num
    omega
  have hor := Nat.or_lt_two_pow ha hb
  have e2 : (2 : Nat) ^ 20 = 1048576 := by norm_num
  rw [e2] at hor
  unfold char_from_u32
  rw [if_neg (by omega)]

/-- Characterization of `unsigned_integer` on a non-empty digit run. -/
theorem unsigned_integer_pos {T : Type} (fromStr : List Nat → Option T) (b : Bytes)
    (h : ¬Bytes.next_bytes_contained_in DIGITS b = 0) :
    Bytes.unsigned_integer fromStr b =
      ((match fromStr (b.bytes.take (Bytes.next_bytes_contained_in DIGITS b)) with
        | some v => Except.ok v
        | none => Except.error Error.ExpectedInteger),
        (Bytes.advance (Bytes.next_bytes_contained_in DIGITS b) b).2) := by
  unfold Bytes.unsigned_integer
  simp [h]

/-! ### Claims -/

/-- C3: `consume` either matches all of the literal's bytes and consumes
exactly them returning `true`, or consumes nothing and returns `false`;
with a literal longer than the remaining input the result is `false` with
nothing consumed (not an `Eof` error).  `consume("true")` on `truefalse`
consumes 4 bytes returning `true`; on `fals` it consumes nothing and
returns `false`. -/
theorem C3_consume_contract :
    (∀ (s : List Nat) (b : Bytes), s.isPrefixOf b.bytes = true →
       (Bytes.consume s b).1 = true ∧ (Bytes.consume s b).2.bytes = b.bytes.drop s.length)
    ∧ (∀ (s : List Nat) (b : Bytes), s.isPrefixOf b.bytes = false →
       Bytes.consume s b = (false, b))
    ∧ (∀ (s : List Nat) (b : Bytes), b.bytes.length < s.length →
       Bytes.consume s b = (false, b))
    ∧ Bytes.consume [116, 114, 117, 101] (Bytes.new [116, 114, 117, 101, 102, 97, 108, 115, 101]) =
        (true, { bytes := [102, 97, 108, 115, 101], column := 5, line := 1 })
    ∧ Bytes.consume [116, 114, 117, 101] (Bytes.new [102, 97, 108, 115]) =
        (false, Bytes.new [102, 97, 108, 115]) := by
  refine ⟨?_, ?_, ?_, by decide, by decide⟩
  · intro s b h
    have hle : s.length ≤ b.bytes.length := (List.isPrefixOf_iff_prefix.mp h).length_le
    unfold Bytes.consume
    rw [if_pos h]
    exact ⟨rfl, advance_bytes_of_le s.length b hle⟩
  · intro s b h
    unfold Bytes.consume
    simp [h]
  · intro s b h
    cases hb : s.isPrefixOf b.bytes with
    | false =>
      unfold Bytes.consume
      simp [hb]
    | true =>
      have hle : s.length ≤ b.bytes.length := (List.isPrefixOf_iff_prefix.mp hb).length_le
      omega

/-- C3 witness: the general contract applied to `consume("true")` on
`truefalse`. -/
theorem C3_consume_contract_witness :
    (Bytes.consume [116, 114, 117, 101]
      (Bytes.new [116, 114, 117, 101, 102, 97, 108, 115, 101])).1 = true ∧
    (Bytes.consume [116, 114, 117, 101]
      (Bytes.new [116, 114, 117, 101, 102, 97, 108, 115, 101])).2.bytes =
      (Bytes.new [116, 114, 117, 101, 102, 97, 108, 115, 101]).bytes.drop
        ([116, 114, 117, 101] : List Nat).length :=
  C3_consume_contract.1 _ _ (by decide)

/-- C4: consuming a newline byte increments `line` and resets `column` to 1;
consuming any other byte increments `column`; concretely over `a\nb`:
after `a` the position is line 1 / column 2, after the newline it is
line 2 / column 1. -/
theorem C4_advance_single_position :
    (∀ (b : Bytes), Bytes.peek b = some 10 →
       Bytes.advance_single b =
         (Except.ok (), { bytes := b.bytes.drop 1, column := 1, line := b.line + 1 }))
    ∧ (∀ (b : Bytes) (c : Nat), Bytes.peek b = some c → c ≠ 10 →
       Bytes.advance_single b =
         (Except.ok (), { bytes := b.bytes.drop 1, column := b.column + 1, line := b.line }))
    ∧ Bytes.advance_single (Bytes.new [97, 10, 98]) =
        (Except.ok (), { bytes := [10, 98], column := 2, line := 1 })
    ∧ Bytes.advance_single { bytes := [10, 98], column := 2, line := 1 } =
        (Except.ok (), { bytes := [98], column := 1, line := 2 }) := by
  refine ⟨?_, ?_, by decide, by decide⟩
  · intro b h
    unfold Bytes.advance_single
    rw [h]
    simp
  · intro b c h hc
    unfold Bytes.advance_single
    rw [h]
    simp [hc]

/-- C4 witness: the newline case applied to the cursor just after `a` in
`a\nb`. -/
theorem C4_advance_single_position_witness :
    Bytes.advance_single { bytes := [10, 98], column := 2, line := 1 } =
      (Except.ok (),
        { bytes := ({ bytes := [10, 98], column := 2, line := 1 } : Bytes).bytes.drop 1,
          column := 1,
          line := ({ bytes := [10, 98], column := 2, line := 1 } : Bytes).line + 1 }) :=
  C4_advance_single_position.1 _ (by decide)

/-- C5: `unsigned_integer` scans the maximal digit run (every scanned byte
is a digit and the next unread byte, if any, is not); an empty run fails
with `Eof` and consumes nothing; a non-empty run always advances the cursor
past the digits, returning the parser's value on success and
`ExpectedInteger` on parse failure.  On `12345abc` it consumes exactly
`12345`, returns 12345 and leaves `abc` unconsumed. -/
theorem C5_unsigned_integer_contract :
    (∀ (T : Type) (fromStr : List Nat → Option T) (b : Bytes),
       (Bytes.next_bytes_contained_in DIGITS b = 0 →
          Bytes.unsigned_integer fromStr b = (Except.error Error.Eof, b))
       ∧ (0 < Bytes.next_bytes_contained_in DIGITS b →
          (Bytes.unsigned_integer fromStr b).2.bytes =
              b.bytes.drop (Bytes.next_bytes_contained_in DIGITS b)
          ∧ (∀ v, fromStr (b.bytes.take (Bytes.next_bytes_contained_in DIGITS b)) = some v →
               (Bytes.unsigned_integer fromStr b).1 = Except.ok v)
          ∧ (fromStr (b.bytes.take (Bytes.next_bytes_contained_in DIGITS b)) = none →
               (Bytes.unsigned_integer fromStr b).1 = Except.error Error.ExpectedInteger))
       ∧ (∀ c, c ∈ b.bytes.take (Bytes.next_bytes_contained_in DIGITS b) →
            DIGITS.contains c = true)
       ∧ (∀ c, (b.bytes.drop (Bytes.next_bytes_contained_in DIGITS b)).head? = some c →
            DIGITS.contains c = false))
    ∧ Bytes.unsigned_integer fromStrNat (Bytes.new [49, 50, 51, 52, 53, 97, 98, 99]) =
        (Except.ok 12345, { bytes := [97, 98, 99], column := 6, line := 1 }) := by
  refine ⟨?_, by decide⟩
  intro T fromStr b
  have hle : Bytes.next_bytes_contained_in DIGITS b ≤ b.bytes.length :=
    (List.takeWhile_prefix _).length_le
  refine ⟨?_, ?_, ?_, ?_⟩
  · intro h0
    unfold Bytes.unsigned_integer
    simp [h0]
  · intro hpos
    have hne : ¬Bytes.next_bytes_contained_in DIGITS b = 0 := by omega
    rw [unsigned_integer_pos fromStr b hne]
    refine ⟨advance_bytes_of_le _ b hle, ?_, ?_⟩
    · intro v hv
      simp [hv]
    · intro hv
      simp [hv]
  · intro c hc
    rw [Bytes.next_bytes_contained_in, take_takeWhile_length] at hc
    simpa using List.mem_takeWhile_imp hc
  · intro c hc
    rw [Bytes.next_bytes_contained_in, drop_takeWhile_length] at hc
    exact head?_dropWhile_false _ _ _ hc

/-- C5 witness: the non-empty-run case applied to `12345abc`. -/
theorem C5_unsigned_integer_contract_witness :
    (Bytes.unsigned_integer fromStrNat (Bytes.new [49, 50, 51, 52, 53, 97, 98, 99])).1 =
      Except.ok 12345 :=
  (((C5_unsigned_integer_contract.1 Nat fromStrNat
      (Bytes.new [49, 50, 51, 52, 53, 97, 98, 99])).2.1 (by decide)).2.1) 12345 (by decide)

/-- C6: `signed_integer` consumes an optional leading `+` and behaves as
`unsigned_integer`, or consumes a leading `-` and numerically negates the
unsigned result; without a sign it delegates directly to
`unsigned_integer`; at end of input it fails with `Eof`, and `Eof` is also
the failure when no digits follow a consumed sign.  On `-42` it returns
−42. -/
theorem C6_signed_integer_contract :
    (∀ (T : Type) (inst : Neg T) (fromStr : List Nat → Option T) (b : Bytes),
       (Bytes.peek b = some 43 →
          Bytes.signed_integer fromStr b =
            Bytes.unsigned_integer fromStr (Bytes.advance_single b).2)
       ∧ (Bytes.peek b = some 45 →
          Bytes.signed_integer fromStr b =
            ((Bytes.unsigned_integer fromStr (Bytes.advance_single b).2).1.map Neg.neg,
              (Bytes.unsigned_integer fromStr (Bytes.advance_single b).2).2))
       ∧ (∀ c, Bytes.peek b = some c → c ≠ 43 → c ≠ 45 →
          Bytes.signed_integer fromStr b = Bytes.unsigned_integer fromStr b)
       ∧ (Bytes.peek b = none →
          Bytes.signed_integer fromStr b = (Except.error Error.Eof, b))
       ∧ (Bytes.peek b = some 43 →
            Bytes.next_bytes_contained_in DIGITS (Bytes.advance_single b).2 = 0 →
            (Bytes.signed_integer fromStr b).1 = Except.error Error.Eof)
       ∧ (Bytes.peek b = some 45 →
            Bytes.next_bytes_contained_in DIGITS (Bytes.advance_single b).2 = 0 →
            (Bytes.signed_integer fromStr b).1 = Except.error Error.Eof))
    ∧ Bytes.signed_integer fromStrInt (Bytes.new [45, 52, 50]) =
        (Except.ok (-42 : Int), { bytes := [], column := 4, line := 1 }) := by
  refine ⟨?_, by decide⟩
  intro T inst fromStr b
  refine ⟨?_, ?_, ?_, ?_, ?_, ?_⟩
  · intro h
    unfold Bytes.signed_integer
    rw [h]
    simp
  · intro h
    unfold Bytes.signed_integer
    rw [h]
    simp
  · intro c h h43 h45
    unfold Bytes.signed_integer
    rw [h]
    simp [h43, h45]
  · intro h
    unfold Bytes.signed_integer
    rw [h]
  · intro h h0
    unfold Bytes.signed_integer
    rw [h]
    simp only [Bytes.unsigned_integer, h0]
    simp
  · intro h h0
    unfold Bytes.signed_integer
    rw [h]
    simp only [Bytes.unsigned_integer, h0]
    simp [Except.map]

/-- C6 witness: the minus case applied to `-42`. -/
theorem C6_signed_integer_contract_witness :
    Bytes.signed_integer fromStrInt (Bytes.new [45, 52, 50]) =
      ((Bytes.unsigned_integer fromStrInt
          (Bytes.advance_single (Bytes.new [45, 52, 50])).2).1.map Neg.neg,
        (Bytes.unsigned_integer fromStrInt
          (Bytes.advance_single (Bytes.new [45, 52, 50])).2).2) :=
  (C6_signed_integer_contract.1 Int inferInstance fromStrInt
    (Bytes.new [45, 52, 50])).2.1 (by decide)

/-- C8: `from_ident` recognizes exactly the three canonical lowercase names
and returns `none` for every other string, including case variants and the
empty string. -/
theorem C8_from_ident_exact :
    (∀ s : String, (Extensions.from_ident s).isSome = true ↔
       s = ("unwrap_newtypes") ∨ s = ("implicit_some") ∨ s = ("unwrap_variant_newtypes"))
    ∧ Extensions.from_ident ("unwrap_newtypes") = some Extensions.UNWRAP_NEWTYPES
    ∧ Extensions.from_ident ("implicit_some") = some Extensions.IMPLICIT_SOME
    ∧ Extensions.from_ident ("unwrap_variant_newtypes") = some Extensions.UNWRAP_VARIANT_NEWTYPES
    ∧ Extensions.from_ident ("") = none
    ∧ Extensions.from_ident ("Unwrap_Newtypes") = none
    ∧ Extensions.from_ident ("IMPLICIT_SOME") = none := by
  refine ⟨?_, by decide, by decide, by decide, by decide, by decide, by decide⟩
  intro s
  unfold Extensions.from_ident
  split_ifs with h1 h2 h3 <;> simp [*]

/-- C8 witness: the characterization applied to the concrete name
`implicit_some`. -/
theorem C8_from_ident_exact_witness :
    (Extensions.from_ident ("implicit_some")).isSome = true ↔
      ("implicit_some" = ("unwrap_newtypes") ∨ "implicit_some" = ("implicit_some") ∨
        "implicit_some" = ("unwrap_variant_newtypes")) :=
  C8_from_ident_exact.1 ("implicit_some")

/-- C9: for every subset of the three extension flags (all 8 bit patterns
below 8), serializing the flag set through the document format's integer
text and deserializing it back yields the identical set. -/
theorem C9_extensions_roundtrip :
    ∀ e : Extensions, e.bits < 8 →
      deserializeExtensions (serializeExtensions e) = some e := by
  intro e h
  obtain ⟨n⟩ := e
  have h2 : n < 8 := h
  interval_cases n <;> decide

/-- C9 witness: the round trip at the subset
`UNWRAP_NEWTYPES ∪ UNWRAP_VARIANT_NEWTYPES` (bits = 5). -/
theorem C9_extensions_roundtrip_witness :
    deserializeExtensions (serializeExtensions ⟨5⟩) = some ⟨5⟩ :=
  C9_extensions_roundtrip ⟨5⟩ (by decide)

/-- C10: when the next byte is not a float character (or the input is
exhausted), the scanned run is empty, the empty text fails the numeric
parse, and `float` fails with `ExpectedFloat` (not `Eof`) consuming
nothing; `unsigned_integer` by contrast fails with `Eof` on an empty digit
run. -/
theorem C10_float_empty_run :
    (∀ (T : Type) (fromStr : List Nat → Option T) (b : Bytes),
       fromStr [] = none →
       (∀ c, Bytes.peek b = some c → FLOAT_CHARS.contains c = false) →
       Bytes.float fromStr b = (Except.error Error.ExpectedFloat, b))
    ∧ (∀ (T : Type) (fromStr : List Nat → Option T) (b : Bytes),
       (∀ c, Bytes.peek b = some c → DIGITS.contains c = false) →
       Bytes.unsigned_integer fromStr b = (Except.error Error.Eof, b)) := by
  constructor
  · intro T fromStr b hemp hc
    have h0 := next_bytes_zero FLOAT_CHARS b hc
    unfold Bytes.float
    simp [h0, hemp, Bytes.advance]
  · intro T fromStr b hc
    have h0 := next_bytes_zero DIGITS b hc
    unfold Bytes.unsigned_integer
    simp [h0]

/-- C10 witness: `float` on the input `x` (not a float character) fails
with `ExpectedFloat` and consumes nothing, while `unsigned_integer` at end
of input fails with `Eof`. -/
theorem C10_float_empty_run_witness :
    Bytes.float fromStrNat (Bytes.new [120]) =
      (Except.error Error.ExpectedFloat, Bytes.new [120]) ∧
    Bytes.unsigned_integer fromStrNat (Bytes.new []) =
      (Except.error Error.Eof, Bytes.new []) :=
  ⟨C10_float_empty_run.1 Nat fromStrNat (Bytes.new [120]) (by decide)
      (by intro c hc; simp [Bytes.peek, Bytes.new] at hc; subst hc; decide),
    C10_float_empty_run.2 Nat fromStrNat (Bytes.new [])
      (by intro c hc; simp [Bytes.peek, Bytes.new] at hc)⟩

/-- C1: when the string scanner finds the closing quote before any
backslash, the intervening bytes are UTF-8-checked (a decoding error is
returned if the check fails), the result is the borrowed `Slice` of exactly
those bytes, and the cursor passes the opening quote, the content and the
closing quote; on `"hello"` (7 bytes) it returns `Slice hello` with cursor
and column advanced by exactly 7. -/
theorem C1_string_slice_path :
    (∀ (b : Bytes) (i : Nat),
       b.bytes.head? = some 34 →
       find_escape_or_end (b.bytes.drop 1) = some (i, 34) →
       (utf8Valid ((b.bytes.drop 1).take i) = true →
          (Bytes.string b).1 = Except.ok (ParsedStr.Slice ((b.bytes.drop 1).take i)) ∧
          (Bytes.string b).2.bytes = b.bytes.drop (i + 2)) ∧
       (utf8Valid ((b.bytes.drop 1).take i) = false →
          (Bytes.string b).1 = Except.error Error.Utf8Error))
    ∧ Bytes.string (Bytes.new [34, 104, 101, 108, 108, 111, 34]) =
        (Except.ok (ParsedStr.Slice [104, 101, 108, 108, 111]),
          { bytes := [], column := 8, line := 1 }) := by
  refine ⟨?_, by decide⟩
  intro b i hq hf
  have hpre := isPrefixOf_head b 34 hq
  have hlen : 1 ≤ b.bytes.length := by
    cases hb : b.bytes with
    | nil => rw [hb] at hq; simp at hq
    | cons c t => simp [hb]
  have hb1 : (Bytes.advance 1 b).2.bytes = b.bytes.drop 1 := advance_bytes_of_le 1 b hlen
  have hilt : i < (b.bytes.drop 1).length := find_escape_lt_length _ _ _ hf
  have heq := string_of_quote b hpre
  rw [hb1, hf] at heq
  simp [-List.drop_one] at heq
  constructor
  · intro hu
    rw [hu] at heq
    simp [-List.drop_one] at heq
    refine ⟨by rw [heq], ?_⟩
    rw [heq]
    have hadv : (Bytes.advance (i + 1) (Bytes.advance 1 b).2).2.bytes =
        (Bytes.advance 1 b).2.bytes.drop (i + 1) :=
      advance_bytes_of_le (i + 1) _ (by rw [hb1]; omega)
    rw [hadv, hb1, List.drop_drop]
    congr 1
    omega
  · intro hu
    rw [hu] at heq
    simp [-List.drop_one] at heq
    rw [heq]

/-- C1 witness: the general slice-path statement applied to `"hello"`. -/
theorem C1_string_slice_path_witness :
    (Bytes.string (Bytes.new [34, 104, 101, 108, 108, 111, 34])).1 =
      Except.ok (ParsedStr.Slice
        (((Bytes.new [34, 104, 101, 108, 108, 111, 34]).bytes.drop 1).take 5)) ∧
    (Bytes.string (Bytes.new [34, 104, 101, 108, 108, 111, 34])).2.bytes =
      (Bytes.new [34, 104, 101, 108, 108, 111, 34]).bytes.drop (5 + 2) :=
  (C1_string_slice_path.1 (Bytes.new [34, 104, 101, 108, 108, 111, 34]) 5
    (by decide) (by decide)).1 (by decide)

/-- C7: a successful `string()` call returns the `Slice` variant exactly
when no backslash occurs in the string body before the closing quote; once
an escape is seen the result is committed to `Allocated` and never reverts
to `Slice`. -/
theorem C7_slice_iff_no_escape :
    ∀ (b : Bytes) (r : ParsedStr) (b2 : Bytes),
      Bytes.string b = (Except.ok r, b2) →
      ((∃ sl, r = ParsedStr.Slice sl) ↔
        92 ∉ (b.bytes.drop 1).takeWhile (fun c => c != 34)) := by
  intro b r b2 h
  cases hpre : List.isPrefixOf [34] b.bytes with
  | false =>
    rw [string_of_no_quote b hpre] at h
    simp at h
  | true =>
    have hlen : 1 ≤ b.bytes.length := by
      cases hb : b.bytes with
      | nil => rw [hb] at hpre; simp [List.isPrefixOf] at hpre
      | cons c t => simp [hb]
    have hb1 : (Bytes.advance 1 b).2.bytes = b.bytes.drop 1 := advance_bytes_of_le 1 b hlen
    have heq := string_of_quote b hpre
    rw [hb1] at heq
    cases hf : find_escape_or_end (b.bytes.drop 1) with
    | none =>
      rw [hf] at heq
      rw [heq] at h
      simp at h
    | some p =>
      obtain ⟨i, t⟩ := p
      rw [hf] at heq
      rcases find_escape_val _ _ _ hf with ht | ht
      · subst ht
        simp [-List.drop_one] at heq
        rw [heq] at h
        have hns := string_loop_no_slice _ _ _ _ _ _ h
        constructor
        · rintro ⟨sl, hsl⟩
          exact absurd hsl (hns sl)
        · intro hnm
          exact absurd (find_escape_backslash_mem _ _ hf) hnm
      · subst ht
        simp [-List.drop_one] at heq
        by_cases hu : utf8Valid ((b.bytes.drop 1).take i) = true
        · rw [hu] at heq
          simp [-List.drop_one] at heq
          rw [heq] at h
          simp at h
          constructor
          · intro _
            exact fun hm => find_escape_quote_no_backslash _ _ hf hm
          · intro _
            exact ⟨b.bytes.tail.take i, h.1.symm⟩
        · have hu2 : utf8Valid ((b.bytes.drop 1).take i) = false := by
            cases hval : utf8Valid ((b.bytes.drop 1).take i) with
            | false => rfl
            | true => exact absurd hval hu
          rw [hu2] at heq
          simp [-List.drop_one] at heq
          rw [heq] at h
          simp at h

/-- C7 witness: the equivalence applied to the successful scan of `"hi"`. -/
theorem C7_slice_iff_no_escape_witness :
    (∃ sl, ParsedStr.Slice [104, 105] = ParsedStr.Slice sl) ↔
      92 ∉ ((Bytes.new [34, 104, 105, 34]).bytes.drop 1).takeWhile (fun c => c != 34) :=
  C7_slice_iff_no_escape (Bytes.new [34, 104, 105, 34]) (ParsedStr.Slice [104, 105])
    { bytes := [], column := 5, line := 1 } (by decide)

/-- C2: inside a string token, a `\u` code unit in the low-surrogate range
with no preceding high surrogate fails with `InvalidEscape`; one in the
high-surrogate range must be followed literally by `\u` and a low-surrogate
code unit, the two being combined by
`((high - 0xD800) <<< 10 ||| (low - 0xDC00)) + 0x10000` into one scalar
value whose UTF-8 encoding is appended, with `InvalidEscape` if the low
half is out of range or the `\u` marker is missing; concretely,
`string()` on `"😀"` yields the `Allocated` 4-byte UTF-8
encoding of U+1F600, and on `"\uDC00"` it fails with `InvalidEscape`. -/
theorem C2_surrogate_escapes :
    (∀ (store : List Nat) (b b1 : Bytes) (n1 : Nat) (b2 : Bytes),
       Bytes.eat_byte b = (Except.ok 117, b1) →
       Bytes.decode_hex_escape b1 = (Except.ok n1, b2) →
       (0xDC00 ≤ n1 → n1 ≤ 0xDFFF →
          Bytes.parse_str_escape store b = (Except.error Error.InvalidEscape, store, b2))
       ∧ (0xD800 ≤ n1 → n1 ≤ 0xDBFF →
          (∀ (c1 : Nat) (b3 : Bytes), Bytes.eat_byte b2 = (Except.ok c1, b3) → c1 ≠ 92 →
             Bytes.parse_str_escape store b = (Except.error Error.InvalidEscape, store, b3))
          ∧ (∀ (b3 : Bytes) (c2 : Nat) (b4 : Bytes),
               Bytes.eat_byte b2 = (Except.ok 92, b3) →
               Bytes.eat_byte b3 = (Except.ok c2, b4) → c2 ≠ 117 →
               Bytes.parse_str_escape store b = (Except.error Error.InvalidEscape, store, b4))
          ∧ (∀ (b3 b4 : Bytes) (n2 : Nat) (b5 : Bytes),
               Bytes.eat_byte b2 = (Except.ok 92, b3) →
               Bytes.eat_byte b3 = (Except.ok 117, b4) →
               Bytes.decode_hex_escape b4 = (Except.ok n2, b5) →
               ((n2 < 0xDC00 ∨ 0xDFFF < n2) →
                  Bytes.parse_str_escape store b =
                    (Except.error Error.InvalidEscape, store, b5))
               ∧ (0xDC00 ≤ n2 → n2 ≤ 0xDFFF →
                  Bytes.parse_str_escape store b =
                    (Except.ok (),
                      store ++
                        utf8Encode ((((n1 - 0xD800) <<< 10) ||| (n2 - 0xDC00)) + 0x10000),
                      b5)))))
    ∧ Bytes.string (Bytes.new [34, 92, 117, 68, 56, 51, 68, 92, 117, 68, 69, 48, 48, 34]) =
        (Except.ok (ParsedStr.Allocated [240, 159, 152, 128]),
          { bytes := [], column := 15, line := 1 })
    ∧ (Bytes.string (Bytes.new [34, 92, 117, 68, 67, 48, 48, 34])).1 =
        Except.error Error.InvalidEscape := by
  refine ⟨?_, by decide, by decide⟩
  intro store b b1 n1 b2 h117 hdec
  constructor
  · intro hlo hhi
    simp [Bytes.parse_str_escape, h117, hdec, hlo, hhi]
  · intro hlo hhi
    have hnotlow : ¬0xDC00 ≤ n1 := by omega
    refine ⟨?_, ?_, ?_⟩
    · intro c1 b3 heat1 hc1
      simp [Bytes.parse_str_escape, h117, hdec, hnotlow, hlo, hhi, heat1, hc1]
    · intro b3 c2 b4 heat1 heat2 hc2
      simp [Bytes.parse_str_escape, h117, hdec, hnotlow, hlo, hhi, heat1, heat2, hc2]
    · intro b3 b4 n2 b5 heat1 heat2 hdec2
      constructor
      · intro hout
        rcases hout with hout | hout <;>
          simp [Bytes.parse_str_escape, h117, hdec, hnotlow, hlo, hhi, heat1, heat2,
            hdec2, hout]
      · intro hge hle
        have hnotout : ¬(n2 < 0xDC00 ∨ 0xDFFF < n2) := by omega
        have hcomb := char_from_u32_combine n1 n2 hlo hhi hge hle
        simp [Bytes.parse_str_escape, h117, hdec, hnotlow, hlo, hhi, heat1, heat2,
          hdec2, hnotout, hcomb]

/-- C2 witness: the lone-low-surrogate failure applied to the concrete
cursor state just after the backslash of `"\uDC00"`. -/
theorem C2_surrogate_escapes_witness :
    Bytes.parse_str_escape []
        { bytes := [117, 68, 67, 48, 48, 34], column := 3, line := 1 } =
      (Except.error Error.InvalidEscape, ([] : List Nat),
        { bytes := [34], column := 8, line := 1 }) :=
  ((C2_surrogate_escapes.1 [] { bytes := [117, 68, 67, 48, 48, 34], column := 3, line := 1 }
      { bytes := [68, 67, 48, 48, 34], column := 4, line := 1 } 0xDC00
      { bytes := [34], column := 8, line := 1 } (by decide) (by decide)).1
    (by decide) (by decide))
